import Mathlib

/-!
Verification of the point-cloud geometry core exercised by the repository's
scripts (`voxel_downsampling.py`, `vertex_normal_estimation.py`,
`point_clouds_visualization.py`).  The scripts delegate voxel downsampling,
spatial neighbor queries and normal estimation to an external geometry
library, so those operations are modelled here from the specification's
data model and component design (sections 3, 4 and 7 of the spec), with
exact rational coordinates in place of floating point.  The parameters the
scripts pass into the core (voxel size 0.05, search radius 0.1, neighbor
cap 30) are embedded from the source files themselves.
-/

namespace PointCloudCore

/-- Modelled from the spec: a Point is an immutable 3-dimensional
coordinate (x, y, z).  The repository has no point type of its own (it
uses the external library's); coordinates are exact rationals here. -/
structure Point where
  x : ℚ
  y : ℚ
  z : ℚ
  deriving DecidableEq, Repr

instance : Inhabited Point := ⟨⟨0, 0, 0⟩⟩

/-- Modelled from the spec: a VoxelKey is an integer triple (ix, iy, iz)
identifying a grid cell. -/
abbrev VoxelKey := ℤ × ℤ × ℤ

/-- Modelled from the spec: the VoxelKey of a point for a given voxel
size, ix = floor(x / voxel_size) and likewise for y and z. -/
def voxelKey (s : ℚ) (p : Point) : VoxelKey :=
  (⌊p.x / s⌋, ⌊p.y / s⌋, ⌊p.z / s⌋)

/-- Squared Euclidean distance between two points (kept squared so that
it stays rational and exactly computable). -/
def sqDist (p q : Point) : ℚ :=
  (p.x - q.x) ^ 2 + (p.y - q.y) ^ 2 + (p.z - q.z) ^ 2

/-- Modelled from the spec: the centroid (arithmetic mean position) of a
group of points. -/
def centroid (g : List Point) : Point :=
  { x := (g.map Point.x).sum / (g.length : ℚ)
    y := (g.map Point.y).sum / (g.length : ℚ)
    z := (g.map Point.z).sum / (g.length : ℚ) }

/-- Keep the first occurrence of each element, dropping later duplicates;
`seen` accumulates the elements already emitted.  This realises the
spec's deterministic group ordering: groups ordered by first-seen point
index. -/
def firstSeenAux {α : Type} [DecidableEq α] (seen : List α) : List α → List α
  | [] => []
  | a :: l => if a ∈ seen then firstSeenAux seen l else a :: firstSeenAux (a :: seen) l

/-- All distinct elements of a list in order of first occurrence. -/
def firstSeen {α : Type} [DecidableEq α] (l : List α) : List α :=
  firstSeenAux [] l

/-- Modelled from the spec: a PointCloud is an ordered sequence of points
optionally paired with a parallel sequence of normals (index-aligned;
empty when unset; an entry is `none` when that point's normal is
undefined).  Normal vectors live in real Euclidean 3-space. -/
structure PointCloud where
  points : List Point
  normals : List (Option (EuclideanSpace ℝ (Fin 3)))

/-- Modelled from the spec's error taxonomy: the only fatal error of the
core is an invalid parameter at call time. -/
inductive GeomError where
  | invalidParameter
  deriving DecidableEq, Repr

/-- The points of a cloud's point list falling in the grid cell `k`. -/
def cellPoints (s : ℚ) (ps : List Point) (k : VoxelKey) : List Point :=
  ps.filter (fun p => voxelKey s p = k)

/-- The occupied grid cells of a point list, ordered by first-seen point
index. -/
def occupiedCells (s : ℚ) (ps : List Point) : List VoxelKey :=
  firstSeen (ps.map (voxelKey s))

/-- Modelled from the spec: `downsample(cloud, voxel_size)`.  Fails with
`InvalidParameter` when voxel_size ≤ 0; otherwise groups the points by
VoxelKey and emits one point per occupied cell, the centroid of the
cell's points, cells ordered by first-seen point index.  The repository
calls this operation as `voxel_down_sample` on the external library. -/
def voxel_down_sample (voxel_size : ℚ) (cloud : PointCloud) :
    Except GeomError PointCloud :=
  if voxel_size ≤ 0 then .error .invalidParameter
  else .ok
    { points := (occupiedCells voxel_size cloud.points).map
        (fun k => centroid (cellPoints voxel_size cloud.points k))
      normals := [] }

theorem mem_firstSeenAux {α : Type} [DecidableEq α] (l : List α) (seen : List α) (a : α) :
    a ∈ firstSeenAux seen l ↔ a ∈ l ∧ a ∉ seen := by
  induction l generalizing seen with
  | nil => simp [firstSeenAux]
  | cons b t ih =>
    by_cases hb : b ∈ seen
    · rw [firstSeenAux, if_pos hb, ih]
      simp only [List.mem_cons]
      by_cases hab : a = b
      · subst hab; tauto
      · tauto
    · rw [firstSeenAux, if_neg hb]
      simp only [List.mem_cons, ih, List.mem_cons, not_or]
      by_cases hab : a = b
      · subst hab; tauto
      · tauto

theorem nodup_firstSeenAux {α : Type} [DecidableEq α] (l seen : List α) :
    (firstSeenAux seen l).Nodup := by
  induction l generalizing seen with
  | nil => simp [firstSeenAux]
  | cons b t ih =>
    by_cases hb : b ∈ seen
    · rw [firstSeenAux, if_pos hb]; exact ih seen
    · rw [firstSeenAux, if_neg hb]
      refine List.nodup_cons.2 ⟨?_, ih _⟩
      rw [mem_firstSeenAux]
      rintro ⟨-, h⟩
      exact h (List.mem_cons_self b seen)

theorem length_firstSeenAux_le {α : Type} [DecidableEq α] (l seen : List α) :
    (firstSeenAux seen l).length ≤ l.length := by
  induction l generalizing seen with
  | nil => simp [firstSeenAux]
  | cons b t ih =>
    by_cases hb : b ∈ seen
    · rw [firstSeenAux, if_pos hb]
      exact (ih seen).trans (Nat.le_succ _)
    · rw [firstSeenAux, if_neg hb]
      simpa using Nat.succ_le_succ (ih (b :: seen))

theorem firstSeenAux_eq_self {α : Type} [DecidableEq α] (l : List α) (seen : List α)
    (hl : l.Nodup) (hs : ∀ a ∈ l, a ∉ seen) : firstSeenAux seen l = l := by
  induction l generalizing seen with
  | nil => rfl
  | cons b t ih =>
    rw [firstSeenAux, if_neg (hs b (List.mem_cons_self b t))]
    congr 1
    refine ih _ (List.nodup_cons.1 hl).2 ?_
    intro a ha hmem
    rcases List.mem_cons.1 hmem with rfl | hseen
    · exact (List.nodup_cons.1 hl).1 ha
    · exact hs a (List.mem_cons_of_mem _ ha) hseen

theorem mem_occupiedCells (s : ℚ) (ps : List Point) (k : VoxelKey) :
    k ∈ occupiedCells s ps ↔ ∃ p ∈ ps, voxelKey s p = k := by
  rw [occupiedCells, firstSeen, mem_firstSeenAux]
  simp [List.mem_map]

/-- C1: for every cloud and every voxel_size > 0, downsample succeeds; the
occupied cells are exactly the VoxelKeys of the input points, with no
duplicates (one output point per occupied cell), and the i-th output point
is the centroid of exactly the input points whose VoxelKey is the i-th
occupied cell. -/
theorem downsample_centroid_per_cell (cloud : PointCloud) (s : ℚ) (hs : 0 < s) :
    ∃ r, voxel_down_sample s cloud = .ok r ∧
      (occupiedCells s cloud.points).Nodup ∧
      (∀ k, k ∈ occupiedCells s cloud.points ↔ ∃ p ∈ cloud.points, voxelKey s p = k) ∧
      r.points = (occupiedCells s cloud.points).map
        (fun k => centroid (cloud.points.filter (fun p => voxelKey s p = k))) := by
  have h : voxel_down_sample s cloud = .ok
      ⟨(occupiedCells s cloud.points).map
        (fun k => centroid (cellPoints s cloud.points k)), []⟩ := by
    rw [voxel_down_sample, if_neg (not_le.2 hs)]
  exact ⟨_, h, nodup_firstSeenAux _ _, fun k => mem_occupiedCells s cloud.points k, rfl⟩

/-- Witness for C1 at a concrete one-point cloud with voxel size 1. -/
theorem downsample_centroid_per_cell_witness :
    ∃ r, voxel_down_sample 1 (PointCloud.mk [Point.mk 0 0 0] []) = .ok r ∧
      (occupiedCells 1 [Point.mk 0 0 0]).Nodup ∧
      (∀ k, k ∈ occupiedCells 1 [Point.mk 0 0 0] ↔
        ∃ p ∈ [Point.mk 0 0 0], voxelKey 1 p = k) ∧
      r.points = (occupiedCells 1 [Point.mk 0 0 0]).map
        (fun k => centroid ([Point.mk 0 0 0].filter (fun p => voxelKey 1 p = k))) :=
  downsample_centroid_per_cell (PointCloud.mk [Point.mk 0 0 0] []) 1 (by norm_num)

theorem sq_sub_lt_of_floor_div_eq {a b s : ℚ} (hs : 0 < s) (h : ⌊a / s⌋ = ⌊b / s⌋) :
    (a - b) ^ 2 < s ^ 2 := by
  have h1 : (⌊a / s⌋ : ℚ) ≤ a / s := Int.floor_le _
  have h2 : a / s < ⌊a / s⌋ + 1 := Int.lt_floor_add_one _
  have h3 : (⌊b / s⌋ : ℚ) ≤ b / s := Int.floor_le _
  have h4 : b / s < ⌊b / s⌋ + 1 := Int.lt_floor_add_one _
  rw [h] at h1 h2
  have hd1 : (a - b) / s < 1 := by rw [sub_div]; linarith
  have hd2 : -1 < (a - b) / s := by rw [sub_div]; linarith
  have ha : a - b < s := by
    have := (div_lt_one hs).1 hd1
    linarith
  have hb : -s < a - b := by
    have := (lt_div_iff₀ hs).1 hd2
    linarith
  exact sq_lt_sq' (by linarith) ha

/-- Points at squared distance at least 3 · s² land in distinct voxels. -/
theorem voxelKey_ne_of_far {s : ℚ} (hs : 0 < s) {p q : Point}
    (h : 3 * s ^ 2 ≤ sqDist p q) : voxelKey s p ≠ voxelKey s q := by
  intro he
  rw [voxelKey, voxelKey] at he
  simp only [Prod.mk.injEq] at he
  obtain ⟨hx, hy, hz⟩ := he
  have h1 := sq_sub_lt_of_floor_div_eq hs hx
  have h2 := sq_sub_lt_of_floor_div_eq hs hy
  have h3 := sq_sub_lt_of_floor_div_eq hs hz
  rw [sqDist] at h
  linarith

/-- C2 counterexample: with voxel size 1 and the two points
(0.1, 0.1, 0.1) and (0.9, 0.9, 0.9), the voxel size is strictly smaller
than the pairwise Euclidean distance (1² < squared distance = 48/25), yet
both points share a voxel, so downsample returns 1 point, not 2. -/
theorem downsample_count_counterexample :
    (0 : ℚ) < 1 ∧
    1 * 1 < sqDist (Point.mk (1/10) (1/10) (1/10)) (Point.mk (9/10) (9/10) (9/10)) ∧
    voxel_down_sample 1
        (PointCloud.mk
          [Point.mk (1/10) (1/10) (1/10), Point.mk (9/10) (9/10) (9/10)] [])
      = .ok (PointCloud.mk [Point.mk (1/2) (1/2) (1/2)] []) ∧
    (PointCloud.mk
      [Point.mk (1/10) (1/10) (1/10), Point.mk (9/10) (9/10) (9/10)] []).points.length = 2 ∧
    (PointCloud.mk [Point.mk (1/2) (1/2) (1/2)] []).points.length = 1 := by
  refine ⟨by norm_num, by norm_num [sqDist], ?_, rfl, rfl⟩
  rw [voxel_down_sample, if_neg (by norm_num)]
  norm_num [occupiedCells, firstSeen, firstSeenAux, cellPoints, voxelKey, centroid,
    List.filter]

/-- C2 amended: for every cloud and voxel_size > 0, downsample succeeds
with at most as many output points as input points; the counts are equal
whenever every pair of input points is at squared distance at least
3 · voxel_size² (i.e. Euclidean distance at least √3 · voxel_size — the
original bound, distance > voxel_size, is insufficient); the empty cloud
maps to the empty cloud and a singleton maps to exactly one point. -/
theorem downsample_count (cloud : PointCloud) (s : ℚ) (hs : 0 < s) :
    ∃ r, voxel_down_sample s cloud = .ok r ∧
      r.points.length ≤ cloud.points.length ∧
      (cloud.points.Pairwise (fun p q => 3 * s ^ 2 ≤ sqDist p q) →
        r.points.length = cloud.points.length) ∧
      (cloud.points = [] → r.points = []) ∧
      (∀ p, cloud.points = [p] → r.points.length = 1) := by
  have h : voxel_down_sample s cloud = .ok
      ⟨(occupiedCells s cloud.points).map
        (fun k => centroid (cellPoints s cloud.points k)), []⟩ := by
    rw [voxel_down_sample, if_neg (not_le.2 hs)]
  refine ⟨_, h, ?_, ?_, ?_, ?_⟩
  · calc ((occupiedCells s cloud.points).map _).length
        = (occupiedCells s cloud.points).length := List.length_map _ _
      _ ≤ (cloud.points.map (voxelKey s)).length := length_firstSeenAux_le _ _
      _ = cloud.points.length := List.length_map _ _
  · intro hp
    have hnd : (cloud.points.map (voxelKey s)).Nodup := by
      rw [List.Nodup, List.pairwise_map]
      exact hp.imp (fun h => voxelKey_ne_of_far hs h)
    rw [List.length_map, occupiedCells, firstSeen,
      firstSeenAux_eq_self _ _ hnd (by simp), List.length_map]
  · intro he
    simp [he, occupiedCells, firstSeen, firstSeenAux]
  · intro p he
    simp [he, occupiedCells, firstSeen, firstSeenAux]

/-- Witness for C2 (amended) at a concrete two-point cloud with voxel
size 1, discharging the positivity hypothesis. -/
theorem downsample_count_witness :
    ∃ r, voxel_down_sample 1 (PointCloud.mk [Point.mk 0 0 0, Point.mk 5 5 5] []) = .ok r ∧
      r.points.length ≤ (PointCloud.mk [Point.mk 0 0 0, Point.mk 5 5 5] []).points.length ∧
      ((PointCloud.mk [Point.mk 0 0 0, Point.mk 5 5 5] []).points.Pairwise
          (fun p q => 3 * (1:ℚ) ^ 2 ≤ sqDist p q) →
        r.points.length =
          (PointCloud.mk [Point.mk 0 0 0, Point.mk 5 5 5] []).points.length) ∧
      ((PointCloud.mk [Point.mk 0 0 0, Point.mk 5 5 5] []).points = [] →
        r.points = []) ∧
      (∀ p, (PointCloud.mk [Point.mk 0 0 0, Point.mk 5 5 5] []).points = [p] →
        r.points.length = 1) :=
  downsample_count (PointCloud.mk [Point.mk 0 0 0, Point.mk 5 5 5] []) 1 one_pos

theorem centroid_singleton (p : Point) : centroid [p] = p := by
  cases p
  simp [centroid]

theorem filter_key_singleton (s : ℚ) (ps : List Point)
    (h : (ps.map (voxelKey s)).Nodup) :
    ∀ p ∈ ps, ps.filter (fun q => voxelKey s q = voxelKey s p) = [p] := by
  induction ps with
  | nil => intro p hp; simp at hp
  | cons b t ih =>
    intro p hp
    rw [List.map_cons, List.nodup_cons] at h
    rcases List.mem_cons.1 hp with rfl | hpt
    · rw [List.filter_cons, if_pos (by simp)]
      have ht : t.filter (fun q => voxelKey s q = voxelKey s p) = [] := by
        refine List.filter_eq_nil_iff.2 ?_
        intro q hq
        simp only [decide_eq_true_eq]
        intro he
        exact h.1 (he ▸ List.mem_map_of_mem (voxelKey s) hq)
      rw [ht]
    · have hne : voxelKey s b ≠ voxelKey s p := by
        intro he
        exact h.1 (he ▸ List.mem_map_of_mem (voxelKey s) hpt)
      rw [List.filter_cons, if_neg (by simpa using hne)]
      exact ih h.2 p hpt

theorem downsample_points_of_nodup (ps : List Point) (s : ℚ)
    (h : (ps.map (voxelKey s)).Nodup) :
    (occupiedCells s ps).map (fun k => centroid (cellPoints s ps k)) = ps := by
  rw [occupiedCells, firstSeen, firstSeenAux_eq_self _ _ h (by simp), List.map_map]
  have hpt : ∀ p ∈ ps,
      ((fun k => centroid (cellPoints s ps k)) ∘ voxelKey s) p = id p := by
    intro p hp
    simp only [Function.comp_apply, id_eq, cellPoints]
    rw [filter_key_singleton s ps h p hp, centroid_singleton]
  rw [List.map_congr_left hpt, List.map_id]

/-- C6: whenever a downsampled cloud's points already occupy pairwise
distinct voxels, running downsample again with the same voxel size
returns the same cloud unchanged. -/
theorem downsample_idempotent (cloud out : PointCloud) (s : ℚ) (hs : 0 < s)
    (h : voxel_down_sample s cloud = .ok out)
    (hnd : (out.points.map (voxelKey s)).Nodup) :
    voxel_down_sample s out = .ok out := by
  rw [voxel_down_sample, if_neg (not_le.2 hs)] at h ⊢
  have hnormals : out.normals = [] := by
    cases h' : out with
    | mk pts nrm =>
      rw [h'] at h
      injection h with h
      injection h with h1 h2
      exact h2.symm
  cases out with
  | mk pts nrm =>
    simp only at hnormals
    subst hnormals
    congr 2
    exact downsample_points_of_nodup pts s (by simpa using hnd)

/-- Witness for C6: a two-point cloud whose points occupy distinct
voxels is a fixed point of downsample at voxel size 1. -/
theorem downsample_idempotent_witness :
    voxel_down_sample 1 (PointCloud.mk [Point.mk 1 1 1, Point.mk 4 4 4] []) =
      .ok (PointCloud.mk [Point.mk 1 1 1, Point.mk 4 4 4] []) :=
  downsample_idempotent
    (PointCloud.mk [Point.mk 1 1 1, Point.mk 4 4 4] [])
    (PointCloud.mk [Point.mk 1 1 1, Point.mk 4 4 4] []) 1 one_pos
    (by
      rw [voxel_down_sample, if_neg (by norm_num)]
      rw [downsample_points_of_nodup [Point.mk 1 1 1, Point.mk 4 4 4] 1
        (by norm_num [voxelKey, Prod.mk.injEq]; decide)])
    (by norm_num [voxelKey, Prod.mk.injEq]; decide)

theorem mul_le_list_sum (l : List ℚ) (a : ℚ) (h : ∀ x ∈ l, a ≤ x) :
    a * l.length ≤ l.sum := by
  induction l with
  | nil => simp
  | cons x t ih =>
    have hx := h x (List.mem_cons_self x t)
    have ht := ih (fun y hy => h y (List.mem_cons_of_mem _ hy))
    have he : a * ((t.length : ℚ) + 1) = a * t.length + a := by ring
    simp only [List.sum_cons, List.length_cons]
    push_cast
    linarith

theorem list_sum_lt_mul (l : List ℚ) (b : ℚ) (hne : l ≠ []) (h : ∀ x ∈ l, x < b) :
    l.sum < b * l.length := by
  induction l with
  | nil => exact absurd rfl hne
  | cons x t ih =>
    have hx := h x (List.mem_cons_self x t)
    rcases eq_or_ne t [] with rfl | ht
    · simpa using hx
    · have hts := ih ht (fun y hy => h y (List.mem_cons_of_mem _ hy))
      have he : b * ((t.length : ℚ) + 1) = b * t.length + b := by ring
      simp only [List.sum_cons, List.length_cons]
      push_cast
      linarith

/-- The mean of a nonempty list of rationals each lying in [k·s, (k+1)·s)
itself lies in that half-open interval, so its floor after division by s
is k. -/
theorem floor_centroid_coord (g : List Point) (f : Point → ℚ) (s : ℚ) (hs : 0 < s)
    (hne : g ≠ []) (k : ℤ) (h : ∀ p ∈ g, ⌊f p / s⌋ = k) :
    ⌊(g.map f).sum / (g.length : ℚ) / s⌋ = k := by
  have hlen : (0 : ℚ) < g.length := by
    cases g with
    | nil => exact absurd rfl hne
    | cons p t =>
      have : 0 < (p :: t).length := Nat.succ_pos _
      exact_mod_cast this
  have hmapne : g.map f ≠ [] := by
    simpa using hne
  have hb : ∀ x ∈ g.map f, x < ((k : ℚ) + 1) * s := by
    intro x hx
    obtain ⟨p, hp, rfl⟩ := List.mem_map.1 hx
    have h2 : f p / s < (k : ℚ) + 1 := by
      have h3 := Int.lt_floor_add_one (f p / s)
      rw [h p hp] at h3
      exact h3
    have := (div_lt_iff₀ hs).1 h2
    linarith
  have ha : ∀ x ∈ g.map f, (k : ℚ) * s ≤ x := by
    intro x hx
    obtain ⟨p, hp, rfl⟩ := List.mem_map.1 hx
    have h2 : (k : ℚ) ≤ f p / s := by
      have h3 := Int.floor_le (f p / s)
      rw [h p hp] at h3
      exact h3
    have := (le_div_iff₀ hs).1 h2
    linarith
  have hsum_lt := list_sum_lt_mul (g.map f) _ hmapne hb
  have hsum_ge := mul_le_list_sum (g.map f) _ ha
  rw [List.length_map] at hsum_lt hsum_ge
  have hns : (0 : ℚ) < (g.length : ℚ) * s := by positivity
  rw [div_div, Int.floor_eq_iff]
  constructor
  · rw [le_div_iff₀ hns]
    have he : (k : ℚ) * ((g.length : ℚ) * s) = k * s * g.length := by ring
    linarith
  · rw [div_lt_iff₀ hns]
    have he : ((k : ℚ) + 1) * ((g.length : ℚ) * s) = ((k : ℚ) + 1) * s * g.length := by
      ring
    linarith

/-- The centroid of the points of an occupied cell lies in that same
cell: a voxel is a convex box. -/
theorem voxelKey_centroid (s : ℚ) (hs : 0 < s) (ps : List Point) (k : VoxelKey)
    (hocc : k ∈ occupiedCells s ps) :
    voxelKey s (centroid (cellPoints s ps k)) = k := by
  have hmem : ∀ p ∈ cellPoints s ps k, voxelKey s p = k := by
    intro p hp
    simpa using (List.mem_filter.1 hp).2
  have hne : cellPoints s ps k ≠ [] := by
    rw [mem_occupiedCells] at hocc
    obtain ⟨p, hp, hk⟩ := hocc
    intro hnil
    have hmemf : p ∈ cellPoints s ps k := List.mem_filter.2 ⟨hp, by simpa using hk⟩
    rw [hnil] at hmemf
    simp at hmemf
  obtain ⟨kx, ky, kz⟩ := k
  rw [voxelKey, centroid]
  simp only [Prod.mk.injEq]
  refine ⟨?_, ?_, ?_⟩
  · exact floor_centroid_coord _ Point.x s hs hne kx
      (fun p hp => by have := hmem p hp; rw [voxelKey] at this; simp at this; exact this.1)
  · exact floor_centroid_coord _ Point.y s hs hne ky
      (fun p hp => by have := hmem p hp; rw [voxelKey] at this; simp at this; exact this.2.1)
  · exact floor_centroid_coord _ Point.z s hs hne kz
      (fun p hp => by have := hmem p hp; rw [voxelKey] at this; simp at this; exact this.2.2)

/-- C7: for every cloud and voxel_size > 0, the output of downsample is a
deterministic function of the input ordering and the voxel size: its i-th
point belongs to the i-th occupied cell, and the occupied cells are
enumerated in first-seen input order, never by unordered iteration of the
grouping structure. -/
theorem downsample_order_deterministic (cloud : PointCloud) (s : ℚ) (hs : 0 < s) :
    ∃ r, voxel_down_sample s cloud = .ok r ∧
      r.points.map (voxelKey s) = occupiedCells s cloud.points ∧
      occupiedCells s cloud.points = firstSeen (cloud.points.map (voxelKey s)) := by
  have h : voxel_down_sample s cloud = .ok
      ⟨(occupiedCells s cloud.points).map
        (fun k => centroid (cellPoints s cloud.points k)), []⟩ := by
    rw [voxel_down_sample, if_neg (not_le.2 hs)]
  refine ⟨_, h, ?_, rfl⟩
  rw [List.map_map]
  have hpt : ∀ k ∈ occupiedCells s cloud.points,
      (voxelKey s ∘ fun k => centroid (cellPoints s cloud.points k)) k = id k := by
    intro k hk
    simp only [Function.comp_apply, id_eq]
    exact voxelKey_centroid s hs cloud.points k hk
  rw [List.map_congr_left hpt, List.map_id]

/-- Witness for C7 at a concrete two-point cloud with voxel size 1. -/
theorem downsample_order_deterministic_witness :
    ∃ r, voxel_down_sample 1 (PointCloud.mk [Point.mk 0 0 0, Point.mk 4 4 4] []) = .ok r ∧
      r.points.map (voxelKey 1) =
        occupiedCells 1 [Point.mk 0 0 0, Point.mk 4 4 4] ∧
      occupiedCells 1 [Point.mk 0 0 0, Point.mk 4 4 4] =
        firstSeen ([Point.mk 0 0 0, Point.mk 4 4 4].map (voxelKey 1)) :=
  downsample_order_deterministic
    (PointCloud.mk [Point.mk 0 0 0, Point.mk 4 4 4] []) 1 one_pos

/-- Modelled from the spec: a SpatialIndex is a read-only structure built
once over a fixed PointCloud snapshot, supporting radius, k-nearest-
neighbor and hybrid queries; it is never mutated. -/
structure SpatialIndex where
  snapshot : List Point

/-- Modelled from the spec: `build(cloud)` constructs the spatial index
over the finalized cloud. -/
def build (cloud : PointCloud) : SpatialIndex := ⟨cloud.points⟩

/-- Indices of the snapshot points within Euclidean distance `r` of `q`
(compared on squared distances), in increasing index order. -/
def radiusIndices (idx : SpatialIndex) (q : Point) (r : ℚ) : List ℕ :=
  (List.range idx.snapshot.length).filter
    (fun i => sqDist (idx.snapshot.getD i default) q ≤ r * r)

/-- Comparison of two snapshot indices by distance to the query point,
ties broken by index, so neighbor ordering is deterministic. -/
def distLeB (idx : SpatialIndex) (q : Point) (i j : ℕ) : Bool :=
  decide (sqDist (idx.snapshot.getD i default) q < sqDist (idx.snapshot.getD j default) q
    ∨ (sqDist (idx.snapshot.getD i default) q = sqDist (idx.snapshot.getD j default) q
        ∧ i ≤ j))

def insertLe {α : Type} (le : α → α → Bool) (a : α) : List α → List α
  | [] => [a]
  | b :: l => if le a b then a :: b :: l else b :: insertLe le a l

def insertionSort {α : Type} (le : α → α → Bool) : List α → List α
  | [] => []
  | a :: l => insertLe le a (insertionSort le l)

/-- Modelled from the spec: `query_knn(index, point, k)`, the k nearest
point indices by Euclidean distance. -/
def knnIndices (idx : SpatialIndex) (q : Point) (k : ℕ) : List ℕ :=
  (insertionSort (distLeB idx q) (List.range idx.snapshot.length)).take k

/-- Modelled from the spec: the hybrid query, all points within radius
capped at the k nearest. -/
def hybridIndices (idx : SpatialIndex) (q : Point) (r : ℚ) (k : ℕ) : List ℕ :=
  (insertionSort (distLeB idx q) (radiusIndices idx q r)).take k

/-- Modelled from the spec: `query_radius(index, point, radius)`; the
radius must be > 0, otherwise the query fails with `InvalidParameter`. -/
def query_radius (idx : SpatialIndex) (q : Point) (r : ℚ) :
    Except GeomError (List ℕ) :=
  if r ≤ 0 then .error .invalidParameter else .ok (radiusIndices idx q r)

/-- Modelled from the spec: `query_knn(index, point, k)`; `k` must be ≥ 1
and ≤ cloud size, otherwise the query fails with `InvalidParameter`. -/
def query_knn (idx : SpatialIndex) (q : Point) (k : ℕ) :
    Except GeomError (List ℕ) :=
  if k < 1 ∨ idx.snapshot.length < k then .error .invalidParameter
  else .ok (knnIndices idx q k)

/-- Modelled from the spec: the hybrid query with its parameter
validation (radius > 0 and neighbor cap ≥ 1). -/
def query_hybrid (idx : SpatialIndex) (q : Point) (r : ℚ) (k : ℕ) :
    Except GeomError (List ℕ) :=
  if r ≤ 0 ∨ k < 1 then .error .invalidParameter
  else .ok (hybridIndices idx q r k)

/-- Coordinate accessor for covariance computations. -/
def coordOf (i : Fin 3) (p : Point) : ℚ := ![p.x, p.y, p.z] i

/-- Modelled from the spec: entry (i, j) of the 3×3 covariance matrix of
a neighbor group about its centroid, as an exact rational. -/
def covEntryQ (g : List Point) (i j : Fin 3) : ℚ :=
  ((g.map (fun p => (coordOf i p - coordOf i (centroid g)) *
      (coordOf j p - coordOf j (centroid g)))).sum) / (g.length : ℚ)

/-- The covariance matrix of a neighbor group, over the reals so that its
eigenvectors exist. -/
noncomputable def covMatrix (g : List Point) : Matrix (Fin 3) (Fin 3) ℝ :=
  Matrix.of fun i j => ((covEntryQ g i j : ℚ) : ℝ)

theorem covMatrix_isHermitian (g : List Point) : (covMatrix g).IsHermitian := by
  rw [Matrix.IsHermitian]
  ext i j
  simp only [Matrix.conjTranspose_apply, covMatrix, Matrix.of_apply, star_trivial]
  norm_cast
  rw [covEntryQ, covEntryQ]
  congr 1
  refine congrArg List.sum (List.map_congr_left ?_)
  intro p hp
  ring

/-- Index of a smallest value of a function on `Fin 3`. -/
noncomputable def minIdx (f : Fin 3 → ℝ) : Fin 3 :=
  Classical.choose (Finset.exists_min_image Finset.univ f ⟨0, Finset.mem_univ 0⟩)

/-- Modelled from the spec: the normal of a neighbor group is the
eigenvector of its covariance matrix for the smallest eigenvalue (the
direction of least variance), a unit vector of the orthonormal
eigenbasis given by the spectral theorem. -/
noncomputable def planeNormal (g : List Point) : EuclideanSpace ℝ (Fin 3) :=
  (covMatrix_isHermitian g).eigenvectorBasis
    (minIdx (covMatrix_isHermitian g).eigenvalues)

theorem norm_planeNormal (g : List Point) : ‖planeNormal g‖ = 1 :=
  (covMatrix_isHermitian g).eigenvectorBasis.orthonormal.1 _

/-- The neighbor group the estimator uses for a query point: the hybrid
query's indices resolved to points (the point itself included, as its own
distance is 0 ≤ r²). -/
def neighborPoints (cloud : PointCloud) (r : ℚ) (k : ℕ) (q : Point) : List Point :=
  (hybridIndices (build cloud) q r k).map (fun i => cloud.points.getD i default)

/-- Modelled from the spec: `estimate_normals(cloud, radius,
max_neighbors)`.  Fails with `InvalidParameter` when radius ≤ 0 or
max_neighbors < 1; otherwise returns the same points in the same order
with a parallel normals sequence: `none` (undefined) for a point whose
hybrid neighborhood has fewer than 3 points, and a unit normal from the
covariance eigen-decomposition otherwise. -/
noncomputable def estimate_normals (cloud : PointCloud) (radius : ℚ)
    (max_neighbors : ℕ) : Except GeomError PointCloud :=
  if radius ≤ 0 ∨ max_neighbors < 1 then .error .invalidParameter
  else .ok
    { points := cloud.points
      normals := cloud.points.map (fun q =>
        if (neighborPoints cloud radius max_neighbors q).length < 3 then none
        else some (planeNormal (neighborPoints cloud radius max_neighbors q))) }

/-- C3: each core operation fails with InvalidParameter exactly when a
parameter is invalid at call time — voxel_size ≤ 0 for downsample,
radius ≤ 0 for the radius query, k < 1 or k > cloud size for the knn
query, radius ≤ 0 or cap < 1 for the hybrid query and for
estimate_normals — and, the operations being functions into `Except`, a
failing call returns the error alone with no output. -/
theorem invalid_parameter_iff (cloud : PointCloud) (idx : SpatialIndex) (q : Point)
    (s r : ℚ) (k maxN : ℕ) :
    (voxel_down_sample s cloud = .error .invalidParameter ↔ s ≤ 0) ∧
    (query_radius idx q r = .error .invalidParameter ↔ r ≤ 0) ∧
    (query_knn idx q k = .error .invalidParameter ↔ k < 1 ∨ idx.snapshot.length < k) ∧
    (query_hybrid idx q r k = .error .invalidParameter ↔ r ≤ 0 ∨ k < 1) ∧
    (estimate_normals cloud r maxN = .error .invalidParameter ↔ r ≤ 0 ∨ maxN < 1) := by
  refine ⟨?_, ?_, ?_, ?_, ?_⟩
  · rw [voxel_down_sample]
    by_cases hc : s ≤ 0
    · rw [if_pos hc]
      exact iff_of_true rfl hc
    · rw [if_neg hc]
      exact iff_of_false (fun h => Except.noConfusion h) hc
  · rw [query_radius]
    by_cases hc : r ≤ 0
    · rw [if_pos hc]
      exact iff_of_true rfl hc
    · rw [if_neg hc]
      exact iff_of_false (fun h => Except.noConfusion h) hc
  · rw [query_knn]
    by_cases hc : k < 1 ∨ idx.snapshot.length < k
    · rw [if_pos hc]
      exact iff_of_true rfl hc
    · rw [if_neg hc]
      exact iff_of_false (fun h => Except.noConfusion h) hc
  · rw [query_hybrid]
    by_cases hc : r ≤ 0 ∨ k < 1
    · rw [if_pos hc]
      exact iff_of_true rfl hc
    · rw [if_neg hc]
      exact iff_of_false (fun h => Except.noConfusion h) hc
  · rw [estimate_normals]
    by_cases hc : r ≤ 0 ∨ maxN < 1
    · rw [if_pos hc]
      exact iff_of_true rfl hc
    · rw [if_neg hc]
      exact iff_of_false (fun h => Except.noConfusion h) hc

/-- C4: with valid parameters, estimate_normals succeeds and returns a
cloud with exactly the input points in the input order, and a normals
sequence covering every point; being a pure function, it leaves the
input cloud untouched. -/
theorem estimate_normals_same_points (cloud : PointCloud) (r : ℚ) (k : ℕ)
    (hr : 0 < r) (hk : 1 ≤ k) :
    ∃ out, estimate_normals cloud r k = .ok out ∧
      out.points = cloud.points ∧
      out.normals.length = cloud.points.length := by
  have hcond : ¬(r ≤ 0 ∨ k < 1) := by
    push_neg
    exact ⟨hr, hk⟩
  have h : estimate_normals cloud r k = .ok
      ⟨cloud.points, cloud.points.map (fun q =>
        if (neighborPoints cloud r k q).length < 3 then none
        else some (planeNormal (neighborPoints cloud r k q)))⟩ := by
    rw [estimate_normals, if_neg hcond]
  exact ⟨_, h, rfl, List.length_map _ _⟩

/-- Witness for C4 at a concrete one-point cloud, radius 1, cap 1. -/
theorem estimate_normals_same_points_witness :
    ∃ out, estimate_normals (PointCloud.mk [Point.mk 0 0 0] []) 1 1 = .ok out ∧
      out.points = (PointCloud.mk [Point.mk 0 0 0] []).points ∧
      out.normals.length = (PointCloud.mk [Point.mk 0 0 0] []).points.length :=
  estimate_normals_same_points (PointCloud.mk [Point.mk 0 0 0] []) 1 1 one_pos le_rfl

/-- C5: with valid parameters estimate_normals always completes; a point
whose hybrid neighborhood has fewer than 3 points gets its normal marked
undefined (`none`) rather than aborting the call, and every point with at
least 3 neighbors still gets a defined normal. -/
theorem estimate_normals_degenerate_nonfatal (cloud : PointCloud) (r : ℚ) (k : ℕ)
    (hr : 0 < r) (hk : 1 ≤ k) :
    ∃ out, estimate_normals cloud r k = .ok out ∧
      ∀ (i : ℕ) (q : Point), cloud.points[i]? = some q →
        ((neighborPoints cloud r k q).length < 3 →
          out.normals[i]? = some none) ∧
        (3 ≤ (neighborPoints cloud r k q).length →
          ∃ n : EuclideanSpace ℝ (Fin 3), out.normals[i]? = some (some n)) := by
  have hcond : ¬(r ≤ 0 ∨ k < 1) := by
    push_neg
    exact ⟨hr, hk⟩
  have h : estimate_normals cloud r k = .ok
      ⟨cloud.points, cloud.points.map (fun q =>
        if (neighborPoints cloud r k q).length < 3 then none
        else some (planeNormal (neighborPoints cloud r k q)))⟩ := by
    rw [estimate_normals, if_neg hcond]
  refine ⟨_, h, ?_⟩
  intro i q hq
  have hmap := List.getElem?_map (fun q =>
    if (neighborPoints cloud r k q).length < 3 then none
    else some (planeNormal (neighborPoints cloud r k q))) cloud.points i
  rw [hq] at hmap
  constructor
  · intro hdeg
    rw [hmap]
    simp [if_pos hdeg]
  · intro hok
    rw [hmap]
    refine ⟨planeNormal (neighborPoints cloud r k q), ?_⟩
    simp [if_neg (not_lt.2 hok)]

/-- Witness for C5 at a concrete one-point cloud, radius 1, cap 5. -/
theorem estimate_normals_degenerate_nonfatal_witness :
    ∃ out, estimate_normals (PointCloud.mk [Point.mk 0 0 0] []) 1 5 = .ok out ∧
      ∀ (i : ℕ) (q : Point), (PointCloud.mk [Point.mk 0 0 0] []).points[i]? = some q →
        ((neighborPoints (PointCloud.mk [Point.mk 0 0 0] []) 1 5 q).length < 3 →
          out.normals[i]? = some none) ∧
        (3 ≤ (neighborPoints (PointCloud.mk [Point.mk 0 0 0] []) 1 5 q).length →
          ∃ n : EuclideanSpace ℝ (Fin 3), out.normals[i]? = some (some n)) :=
  estimate_normals_degenerate_nonfatal (PointCloud.mk [Point.mk 0 0 0] []) 1 5
    one_pos (by norm_num)

/-- C8: every defined normal produced by estimate_normals (a point with
at least 3 hybrid neighbors) has unit Euclidean length, hence in
particular within the 1e-6 floating-point tolerance of 1. -/
theorem estimate_normals_unit_length (cloud : PointCloud) (r : ℚ) (k : ℕ)
    (hr : 0 < r) (hk : 1 ≤ k) :
    ∃ out, estimate_normals cloud r k = .ok out ∧
      ∀ (i : ℕ) (q : Point), cloud.points[i]? = some q →
        3 ≤ (neighborPoints cloud r k q).length →
        ∃ n : EuclideanSpace ℝ (Fin 3), out.normals[i]? = some (some n) ∧
          ‖n‖ = 1 ∧ |‖n‖ - 1| < 1 / 1000000 := by
  have hcond : ¬(r ≤ 0 ∨ k < 1) := by
    push_neg
    exact ⟨hr, hk⟩
  have h : estimate_normals cloud r k = .ok
      ⟨cloud.points, cloud.points.map (fun q =>
        if (neighborPoints cloud r k q).length < 3 then none
        else some (planeNormal (neighborPoints cloud r k q)))⟩ := by
    rw [estimate_normals, if_neg hcond]
  refine ⟨_, h, ?_⟩
  intro i q hq hok
  have hmap := List.getElem?_map (fun q =>
    if (neighborPoints cloud r k q).length < 3 then none
    else some (planeNormal (neighborPoints cloud r k q))) cloud.points i
  rw [hq] at hmap
  refine ⟨planeNormal (neighborPoints cloud r k q), ?_, norm_planeNormal _, ?_⟩
  · rw [hmap]
    simp [if_neg (not_lt.2 hok)]
  · rw [norm_planeNormal]
    norm_num

/-- Witness for C8 at a concrete three-point cloud, radius 1, cap 30. -/
theorem estimate_normals_unit_length_witness :
    ∃ out, estimate_normals
        (PointCloud.mk [Point.mk 0 0 0, Point.mk (1/10) 0 0, Point.mk 0 (1/10) 0] [])
        1 30 = .ok out ∧
      ∀ (i : ℕ) (q : Point), (PointCloud.mk
          [Point.mk 0 0 0, Point.mk (1/10) 0 0, Point.mk 0 (1/10) 0] []).points[i]?
            = some q →
        3 ≤ (neighborPoints (PointCloud.mk
          [Point.mk 0 0 0, Point.mk (1/10) 0 0, Point.mk 0 (1/10) 0] []) 1 30 q).length →
        ∃ n : EuclideanSpace ℝ (Fin 3), out.normals[i]? = some (some n) ∧
          ‖n‖ = 1 ∧ |‖n‖ - 1| < 1 / 1000000 :=
  estimate_normals_unit_length
    (PointCloud.mk [Point.mk 0 0 0, Point.mk (1/10) 0 0, Point.mk 0 (1/10) 0] [])
    1 30 one_pos (by norm_num)

/-- The PointCloud invariant of the spec's data model: a present normals
sequence is index-aligned with the points. -/
def normalsAligned (cloud : PointCloud) : Prop :=
  cloud.normals = [] ∨ cloud.normals.length = cloud.points.length

/-- C9: every cloud produced by downsample or by estimate_normals
satisfies the data-model invariant: the normals sequence is either empty
or exactly as long as the points sequence. -/
theorem core_outputs_normals_aligned :
    (∀ cloud s out, voxel_down_sample s cloud = .ok out → normalsAligned out) ∧
    (∀ cloud r k out, estimate_normals cloud r k = .ok out → normalsAligned out) := by
  constructor
  · intro cloud s out h
    rw [voxel_down_sample] at h
    by_cases hc : s ≤ 0
    · rw [if_pos hc] at h
      cases h
    · rw [if_neg hc] at h
      injection h with h
      subst h
      left
      rfl
  · intro cloud r k out h
    rw [estimate_normals] at h
    by_cases hc : r ≤ 0 ∨ k < 1
    · rw [if_pos hc] at h
      cases h
    · rw [if_neg hc] at h
      injection h with h
      subst h
      right
      exact List.length_map _ _

/-- Witness for C9: both operations evaluated at concrete inputs. -/
theorem core_outputs_normals_aligned_witness :
    normalsAligned (PointCloud.mk [] []) ∧
    normalsAligned (PointCloud.mk [] []) :=
  ⟨core_outputs_normals_aligned.1 (PointCloud.mk [] []) 1 (PointCloud.mk [] [])
      (by rw [voxel_down_sample, if_neg (by norm_num)]; rfl),
    core_outputs_normals_aligned.2 (PointCloud.mk [] []) 1 1 (PointCloud.mk [] [])
      (by rw [estimate_normals, if_neg (by norm_num)]; rfl)⟩

/-- The voxel size the scripts pass to voxel_down_sample:
`voxel_size=0.05` in `voxel_downsampling.py` and
`vertex_normal_estimation.py`. -/
def scriptVoxelSize : ℚ := 5 / 100

/-- The search radius `vertex_normal_estimation.py` passes to
KDTreeSearchParamHybrid: `radius=0.1`. -/
def scriptRadius : ℚ := 1 / 10

/-- The neighbor cap `vertex_normal_estimation.py` passes to
KDTreeSearchParamHybrid: `max_nn=30`. -/
def scriptMaxNN : ℕ := 30

/-- The geometry pipeline of `voxel_downsampling.py` (and of
`point_clouds_visualization.py`, whose pipeline is a strict subset):
downsample the loaded cloud at voxel size 0.05. -/
def voxelDownsamplingScript (cloud : PointCloud) : Except GeomError PointCloud :=
  voxel_down_sample scriptVoxelSize cloud

/-- The geometry pipeline of `vertex_normal_estimation.py`: downsample at
voxel size 0.05, then estimate normals with radius 0.1 and max_nn 30. -/
noncomputable def vertexNormalEstimationScript (cloud : PointCloud) :
    Except GeomError PointCloud :=
  (voxel_down_sample scriptVoxelSize cloud).bind
    (fun d => estimate_normals d scriptRadius scriptMaxNN)

/-- C10: the parameters the shipped scripts pass into the core satisfy
every precondition (0.05 > 0, 0.1 > 0, 30 ≥ 1), so on any input cloud
both script pipelines succeed and the InvalidParameter branch is
unreachable. -/
theorem scripts_never_invalid_parameter (cloud : PointCloud) :
    0 < scriptVoxelSize ∧ 0 < scriptRadius ∧ 1 ≤ scriptMaxNN ∧
    (∃ r, voxelDownsamplingScript cloud = .ok r) ∧
    (∃ r, vertexNormalEstimationScript cloud = .ok r) := by
  have hvs : ¬(scriptVoxelSize ≤ 0) := by norm_num [scriptVoxelSize]
  have hdown : voxel_down_sample scriptVoxelSize cloud = .ok
      ⟨(occupiedCells scriptVoxelSize cloud.points).map
        (fun k => centroid (cellPoints scriptVoxelSize cloud.points k)), []⟩ := by
    rw [voxel_down_sample, if_neg hvs]
  have hest : ¬(scriptRadius ≤ 0 ∨ scriptMaxNN < 1) := by
    norm_num [scriptRadius, scriptMaxNN]
  have hdownScript : voxelDownsamplingScript cloud = .ok
      ⟨(occupiedCells scriptVoxelSize cloud.points).map
        (fun k => centroid (cellPoints scriptVoxelSize cloud.points k)), []⟩ := by
    rw [voxelDownsamplingScript, hdown]
  have hup : vertexNormalEstimationScript cloud = .ok
      ⟨(PointCloud.mk ((occupiedCells scriptVoxelSize cloud.points).map
          (fun k => centroid (cellPoints scriptVoxelSize cloud.points k))) []).points,
        (PointCloud.mk ((occupiedCells scriptVoxelSize cloud.points).map
          (fun k => centroid (cellPoints scriptVoxelSize cloud.points k))) []).points.map
          (fun q =>
            if (neighborPoints (PointCloud.mk
                ((occupiedCells scriptVoxelSize cloud.points).map
                  (fun k => centroid (cellPoints scriptVoxelSize cloud.points k))) [])
                scriptRadius scriptMaxNN q).length < 3 then none
            else some (planeNormal (neighborPoints (PointCloud.mk
                ((occupiedCells scriptVoxelSize cloud.points).map
                  (fun k => centroid (cellPoints scriptVoxelSize cloud.points k))) [])
                scriptRadius scriptMaxNN q)))⟩ := by
    rw [vertexNormalEstimationScript, hdown]
    show estimate_normals _ scriptRadius scriptMaxNN = _
    rw [estimate_normals, if_neg hest]
  exact ⟨by norm_num [scriptVoxelSize], by norm_num [scriptRadius],
    by norm_num [scriptMaxNN], ⟨_, hdownScript⟩, ⟨_, hup⟩⟩

end PointCloudCore
